import Mathlib

/-!
Verification development for the echolingo repository (Next.js dictionary app).

The development shallowly embeds the relevant TypeScript source:
  * src/app/api/vocabulary/route.ts  (retry wrapper, fence stripping, JSON
    repair, schema validation and part-of-speech aggregation)
  * src/lib/database.ts              (SQLite-branch word CRUD: saveWord,
    getSavedWords, isWordSaved, deleteSavedWord; JSON (de)serialization of
    array fields)
  * src/app/api/saved-words/route.ts (list endpoint)
  * src/app/api/export-anki/route.ts (CSV field escaping)
  * src/unnamed/part_002             (remote-client save route: lowercasing)

Strings are Lean `String`s (lists of Unicode scalar values); JS runtime
behaviour (`JSON.parse`, `JSON.stringify`, `String.prototype.trim`, the two
regex replaces used for fence stripping, `Array.prototype.filter`, JS `Set`
insertion-order semantics) is embedded as executable Lean functions.
`toLowerCase` is modelled ASCII-only, matching SQLite's LOWER() and Lean's
`Char.toLower`; timestamps (`Date.now()`, ISO `savedAt` strings) are
modelled as `Nat`, which preserves their ordering.
-/

/-! ## Character constants -/

/-- Backtick character, U+0060. -/
def btChar : Char := Char.ofNat 96

/-- Left curly brace character, U+007B. -/
def lbraceChar : Char := Char.ofNat 123

/-- Right curly brace character, U+007D. -/
def rbraceChar : Char := Char.ofNat 125

/-! ## JS string primitives -/

/-- Whitespace as matched by JavaScript `\s` and `String.prototype.trim`
(ECMA-262 WhiteSpace ∪ LineTerminator). -/
def jsWsChar (c : Char) : Bool :=
  c = ' ' || c = '\t' || c = '\n' || c.toNat = 11 || c.toNat = 12 || c = '\r' ||
  c.toNat = 160 || c.toNat = 0x1680 || (0x2000 ≤ c.toNat && c.toNat ≤ 0x200a) ||
  c.toNat = 0x2028 || c.toNat = 0x2029 || c.toNat = 0x202f || c.toNat = 0x205f ||
  c.toNat = 0x3000 || c.toNat = 0xfeff

/-- Model of `String.prototype.trim` at the character-list level. -/
def jsTrimL (l : List Char) : List Char :=
  ((l.dropWhile jsWsChar).reverse.dropWhile jsWsChar).reverse

/-- Model of `String.prototype.toLowerCase`, restricted to ASCII (this also
matches SQLite's `LOWER()` used in database.ts). -/
def jsToLower (s : String) : String :=
  ⟨s.data.map Char.toLower⟩

/-! ## JSON values

Model of the values produced by `JSON.parse`.  Numbers are kept as their
source lexeme (the embedding never needs their numeric value, only equality
of parse results), strings are Lean strings. -/

inductive Json where
  | null : Json
  | bool : Bool → Json
  | num : String → Json
  | str : String → Json
  | arr : List Json → Json
  | obj : List (String × Json) → Json

/-! ## JSON parser (model of `JSON.parse`) -/

/-- Whitespace accepted between JSON tokens by `JSON.parse` (RFC 8259). -/
def jsonWsChar (c : Char) : Bool :=
  c = ' ' || c = '\t' || c = '\n' || c = '\r'

/-- Skip inter-token whitespace. -/
def skipWs (l : List Char) : List Char := l.dropWhile jsonWsChar

/-- Numeric value of a hexadecimal digit. -/
def hexVal? (c : Char) : Option Nat :=
  if '0' ≤ c ∧ c ≤ '9' then some (c.toNat - 48)
  else if 'a' ≤ c ∧ c ≤ 'f' then some (c.toNat - 87)
  else if 'A' ≤ c ∧ c ≤ 'F' then some (c.toNat - 55)
  else none

/-- Parse the body of a JSON string after the opening quote; returns the
decoded characters and the input remaining after the closing quote.  The
JSON escapes are decoded; raw control characters are rejected, as by
`JSON.parse`.  (A `\uXXXX` escape denoting a lone UTF-16 surrogate is not
representable as a Lean `Char` and is rejected; `JSON.stringify` output
never contains one.) -/
def parseStringBody : List Char → Option (List Char × List Char)
  | [] => none
  | c :: rest =>
    if c = '\"' then some ([], rest)
    else if c = '\\' then
      match rest with
      | [] => none
      | e :: rest2 =>
        if e = '\"' then (parseStringBody rest2).map (fun p => ('\"' :: p.1, p.2))
        else if e = '\\' then (parseStringBody rest2).map (fun p => ('\\' :: p.1, p.2))
        else if e = '/' then (parseStringBody rest2).map (fun p => ('/' :: p.1, p.2))
        else if e = 'b' then (parseStringBody rest2).map (fun p => (Char.ofNat 8 :: p.1, p.2))
        else if e = 'f' then (parseStringBody rest2).map (fun p => (Char.ofNat 12 :: p.1, p.2))
        else if e = 'n' then (parseStringBody rest2).map (fun p => ('\n' :: p.1, p.2))
        else if e = 'r' then (parseStringBody rest2).map (fun p => ('\r' :: p.1, p.2))
        else if e = 't' then (parseStringBody rest2).map (fun p => ('\t' :: p.1, p.2))
        else if e = 'u' then
          match rest2 with
          | h1 :: h2 :: h3 :: h4 :: rest3 =>
            match hexVal? h1, hexVal? h2, hexVal? h3, hexVal? h4 with
            | some a, some b, some c3, some d =>
              let n := a * 4096 + b * 256 + c3 * 16 + d
              if Nat.isValidChar n then
                (parseStringBody rest3).map (fun p => (Char.ofNat n :: p.1, p.2))
              else none
            | _, _, _, _ => none
          | _ => none
        else none
    else if c.toNat < 32 then none
    else (parseStringBody rest).map (fun p => (c :: p.1, p.2))

/-- Is the character an ASCII decimal digit? -/
def isDigitChar (c : Char) : Bool := '0' ≤ c && c ≤ '9'

/-- Parse the integer part of a JSON number (`0` or a nonzero digit followed
by digits), prepending the already-consumed sign to the lexeme. -/
def parseNumberIntPart (sign : List Char) (l1 : List Char) : Option (List Char × List Char) :=
  match l1 with
  | [] => none
  | c :: t =>
    if c = '0' then
      some (sign ++ ['0'], t)
    else if isDigitChar c then
      some (sign ++ c :: t.takeWhile isDigitChar, t.dropWhile isDigitChar)
    else none

/-- Parse an optional fractional part and append it to the lexeme. -/
def parseNumberFracPart (intLex : List Char) (l2 : List Char) : Option (List Char × List Char) :=
  match l2 with
  | '.' :: t =>
    let ds := t.takeWhile isDigitChar
    if ds.isEmpty then none
    else some (intLex ++ '.' :: ds, t.dropWhile isDigitChar)
  | _ => some (intLex, l2)

/-- Parse an optional exponent part and append it to the lexeme. -/
def parseNumberExpPart (lex : List Char) (l3 : List Char) : Option (List Char × List Char) :=
  match l3 with
  | c :: t =>
    if c = 'e' ∨ c = 'E' then
      let (sgn, t2) :=
        match t with
        | '+' :: t2 => (['+'], t2)
        | '-' :: t2 => (['-'], t2)
        | _ => (([] : List Char), t)
      let ds := t2.takeWhile isDigitChar
      if ds.isEmpty then none
      else some (lex ++ c :: sgn ++ ds, t2.dropWhile isDigitChar)
    else some (lex, l3)
  | [] => some (lex, l3)

/-- Parse a JSON number token (RFC 8259 grammar: `-?int frac? exp?`),
returning its lexeme and the rest of the input. -/
def parseNumberTok (l : List Char) : Option (List Char × List Char) :=
  let (sign, l1) :=
    match l with
    | '-' :: t => (['-'], t)
    | _ => (([] : List Char), l)
  match parseNumberIntPart sign l1 with
  | none => none
  | some (intLex, l2) =>
    match parseNumberFracPart intLex l2 with
    | none => none
    | some (lex, l3) => parseNumberExpPart lex l3

mutual

/-- Parse one JSON value (fueled; fuel bounds the recursion depth). -/
def parseValue : Nat → List Char → Option (Json × List Char)
  | 0, _ => none
  | Nat.succ fuel, l =>
    match skipWs l with
    | [] => none
    | c :: rest =>
      if c = '\"' then
        (parseStringBody rest).map (fun p => (Json.str ⟨p.1⟩, p.2))
      else if c = lbraceChar then
        match skipWs rest with
        | c2 :: rest2 =>
          if c2 = rbraceChar then some (Json.obj [], rest2)
          else (parseMembers fuel (skipWs rest)).map (fun p => (Json.obj p.1, p.2))
        | [] => none
      else if c = '[' then
        match skipWs rest with
        | c2 :: rest2 =>
          if c2 = ']' then some (Json.arr [], rest2)
          else (parseElems fuel (skipWs rest)).map (fun p => (Json.arr p.1, p.2))
        | [] => none
      else if c = 't' then
        match rest with
        | 'r' :: 'u' :: 'e' :: r => some (Json.bool true, r)
        | _ => none
      else if c = 'f' then
        match rest with
        | 'a' :: 'l' :: 's' :: 'e' :: r => some (Json.bool false, r)
        | _ => none
      else if c = 'n' then
        match rest with
        | 'u' :: 'l' :: 'l' :: r => some (Json.null, r)
        | _ => none
      else
        (parseNumberTok (c :: rest)).map (fun p => (Json.num ⟨p.1⟩, p.2))

/-- Parse the elements of a non-empty JSON array, up to and including the
closing bracket. -/
def parseElems : Nat → List Char → Option (List Json × List Char)
  | 0, _ => none
  | Nat.succ fuel, l =>
    match parseValue fuel l with
    | none => none
    | some (v, r) =>
      match skipWs r with
      | ',' :: r2 =>
        (parseElems fuel r2).map (fun p => (v :: p.1, p.2))
      | ']' :: r2 => some ([v], r2)
      | _ => none

/-- Parse the members of a non-empty JSON object, up to and including the
closing brace. -/
def parseMembers : Nat → List Char → Option (List (String × Json) × List Char)
  | 0, _ => none
  | Nat.succ fuel, l =>
    match skipWs l with
    | c :: rest =>
      if c = '\"' then
        match parseStringBody rest with
        | none => none
        | some (key, r) =>
          match skipWs r with
          | ':' :: r2 =>
            match parseValue fuel r2 with
            | none => none
            | some (v, r3) =>
              match skipWs r3 with
              | ',' :: r4 =>
                (parseMembers fuel r4).map (fun p => ((⟨key⟩, v) :: p.1, p.2))
              | c5 :: r5 =>
                if c5 = rbraceChar then some ([(⟨key⟩, v)], r5) else none
              | [] => none
          | _ => none
      else none
    | [] => none

end

/-- Model of `JSON.parse` at the character-list level: one value, with only
whitespace allowed after it. -/
def jsonParseL (l : List Char) : Option Json :=
  match parseValue (l.length + 1) l with
  | some (v, rest) => if skipWs rest = [] then some v else none
  | none => none

/-- Model of `JSON.parse` on strings. -/
def jsonParse (s : String) : Option Json := jsonParseL s.data

/-! ## JSON serialization (model of `JSON.stringify` on arrays of strings,
the only shape the repository serializes). -/

/-- Lower-case hexadecimal digit character for `n < 16`. -/
def hexDigitChar (n : Nat) : Char :=
  if n < 10 then Char.ofNat (48 + n) else Char.ofNat (87 + n)

/-- Escape a single character as `JSON.stringify` does inside a string
literal. -/
def escJsonChar (c : Char) : List Char :=
  if c = '\"' then ['\\', '\"']
  else if c = '\\' then ['\\', '\\']
  else if c = Char.ofNat 8 then ['\\', 'b']
  else if c = '\t' then ['\\', 't']
  else if c = '\n' then ['\\', 'n']
  else if c = Char.ofNat 12 then ['\\', 'f']
  else if c = '\r' then ['\\', 'r']
  else if c.toNat < 32 then
    ['\\', 'u', '0', '0', hexDigitChar (c.toNat / 16), hexDigitChar (c.toNat % 16)]
  else [c]

/-- Serialize one string as a JSON string literal (character list). -/
def strQuoteL (s : String) : List Char :=
  '\"' :: s.data.flatMap escJsonChar ++ ['\"']

/-- Join character lists with comma separators, as `JSON.stringify` renders
array elements. -/
def joinComma : List (List Char) → List Char
  | [] => []
  | [x] => x
  | x :: y :: rest => x ++ ',' :: joinComma (y :: rest)

/-- Model of `JSON.stringify` applied to an array of strings. -/
def strArrStringify (l : List String) : String :=
  ⟨'[' :: joinComma (l.map strQuoteL) ++ [']']⟩

example : jsonParse (strArrStringify ["a", "b"]) = some (Json.arr [Json.str "a", Json.str "b"]) := by
  rfl

example : jsonParse "[\"he \\\"x\\\"\",\"\\u0001\"]" =
    some (Json.arr [Json.str "he \"x\"", Json.str ⟨[Char.ofNat 1]⟩]) := by
  rfl

example : jsonParse " \x7b\"word\": \"run\", \"n\": -1.5e2\x7d " =
    some (Json.obj [("word", Json.str "run"), ("n", Json.num "-1.5e2")]) := by
  rfl

/-! ## JSON-fence stripping and brace-substring repair
(vocabulary/route.ts lines 140-163) -/

/-- Does the (trimmed) completion text start with a triple backtick?
Models `jsonText.startsWith(BTBTBT)`. -/
def startsWithFence : List Char → Bool
  | c1 :: c2 :: c3 :: _ => c1 = btChar && c2 = btChar && c3 = btChar
  | _ => false

/-- Model of `.replace(BTBTBT(json)?-then-whitespace-prefix-regex, '')`
(case-insensitive, anchored at the start): drop the three backticks, an
optional `json` tag, and following whitespace.  When the input does not
start with a fence it is returned unchanged, as `String.replace` with an
unmatched pattern. -/
def stripLeadingFence (l : List Char) : List Char :=
  match l with
  | c1 :: c2 :: c3 :: rest =>
    if c1 = btChar ∧ c2 = btChar ∧ c3 = btChar then
      let r :=
        match rest with
        | d1 :: d2 :: d3 :: d4 :: rest2 =>
          if d1.toLower = 'j' ∧ d2.toLower = 's' ∧ d3.toLower = 'o' ∧ d4.toLower = 'n'
          then rest2 else rest
        | _ => rest
      r.dropWhile jsWsChar
    else l
  | _ => l

/-- Does this suffix match the trailing-fence regex (three backticks followed
only by whitespace up to the end of the string)? -/
def fenceEndHere (l : List Char) : Bool :=
  match l with
  | c1 :: c2 :: c3 :: rest =>
    c1 = btChar && c2 = btChar && c3 = btChar && rest.all jsWsChar
  | _ => false

/-- Model of `.replace(trailing-fence-regex, '')`: remove the leftmost
occurrence of three backticks followed only by whitespace, which necessarily
extends to the end of the string; unchanged when there is no match. -/
def stripTrailingFence : List Char → List Char
  | [] => []
  | c :: rest => if fenceEndHere (c :: rest) then [] else c :: stripTrailingFence rest

/-- Model of `jsonText.match(first-lbrace-to-last-rbrace-regex)`: the greedy
regex matches from the first left brace that has a right brace after it up
to the last right brace of the string. -/
def braceExtract (l : List Char) : Option (List Char) :=
  let fromFirst := l.dropWhile (fun c => ¬ c = lbraceChar)
  let m := (fromFirst.reverse.dropWhile (fun c => ¬ c = rbraceChar)).reverse
  if 2 ≤ m.length then some m else none

/-- The `jsonText` the route ends up parsing: the trimmed completion text,
fence-stripped and re-trimmed when it starts with a code fence. -/
def jsonTextOf (content : String) : List Char :=
  let raw := jsTrimL content.data
  if startsWithFence raw then jsTrimL (stripTrailingFence (stripLeadingFence raw)) else raw

/-- Model of the route's parse-and-repair stage (lines 140-163): parse the
fence-stripped text; on failure extract the first-brace-to-last-brace
substring and re-parse; `none` models throwing the malformed-response error
(`Failed to parse JSON from OpenAI response` or the `JSON.parse` exception),
which the route maps to a 500 response. -/
def parseVocabContent (content : String) : Option Json :=
  match jsonParseL (jsonTextOf content) with
  | some v => some v
  | none =>
    match braceExtract (jsonTextOf content) with
    | none => none
    | some m => jsonParseL m

/-! ## Retry wrapper (vocabulary/route.ts lines 8-31) -/

/-- `MAX_RETRIES` from vocabulary/route.ts. -/
def MAX_RETRIES : Nat := 3

/-- `BASE_DELAY_MS` from vocabulary/route.ts. -/
def BASE_DELAY_MS : Nat := 600

/-- One execution trace of `withRetry`: `(outcome, number of calls to fn,
list of backoff delays slept)`.  The outcome is `Except.error lastErr` when
the loop exhausts its attempts (`throw lastError`; `none` would mean no
attempt ever ran, which cannot happen with positive `MAX_RETRIES`).
`results n` is the outcome of the `n`-th (0-based) invocation of `fn`, and
`jitter n` models `Math.floor(Math.random() * 200)` for that iteration. -/
def retryLoop (results : Nat → Except ε α) (jitter : Nat → Nat) :
    Nat → Nat → List Nat → Option ε → Except (Option ε) α × Nat × List Nat
  | 0, attempt, delays, lastErr => (Except.error lastErr, attempt, delays)
  | Nat.succ rem, attempt, delays, _lastErr =>
    match results attempt with
    | Except.ok a => (Except.ok a, attempt + 1, delays)
    | Except.error e =>
      let n := attempt + 1
      let d := BASE_DELAY_MS * 2 ^ (n - 1) + jitter attempt
      retryLoop results jitter rem n (delays ++ [d]) (some e)

/-- Model of `withRetry fn`: run the loop `while (attempt < MAX_RETRIES)`. -/
def withRetryModel (results : Nat → Except ε α) (jitter : Nat → Nat) :
    Except (Option ε) α × Nat × List Nat :=
  retryLoop results jitter MAX_RETRIES 0 [] none

/-! ## Helper lemmas on lists and trimming -/

@[simp]
lemma data_append (s t : String) : (s ++ t).data = s.data ++ t.data := rfl

lemma dropWhile_head_false {α : Type} {p : α → Bool} :
    ∀ {l : List α} {c : α} {t : List α}, l.dropWhile p = c :: t → p c = false := by
  intro l
  induction l with
  | nil => intro c t h; simp [List.dropWhile] at h
  | cons a l ih =>
    intro c t h
    rw [List.dropWhile_cons] at h
    by_cases hp : p a = true
    · exact ih (by rwa [if_pos hp] at h)
    · rw [if_neg hp] at h
      cases h
      exact Bool.eq_false_iff.mpr hp

lemma dropWhile_cons_false {α : Type} {p : α → Bool} {c : α} (h : p c = false) (t : List α) :
    (c :: t).dropWhile p = c :: t := by
  rw [List.dropWhile_cons, if_neg (by simp [h])]

lemma jsTrimL_nil : jsTrimL [] = [] := rfl

lemma jsTrimL_eq_of_dropWhile_nil {l : List Char} (h : l.dropWhile jsWsChar = []) :
    jsTrimL l = [] := by
  simp [jsTrimL, h]

/-- The parser rejects the empty input. -/
lemma jsonParseL_nil : jsonParseL [] = none := rfl

/-- The parser rejects any input whose first character is a backtick, since
no JSON value can start with one. -/
lemma jsonParseL_btChar_head (l : List Char) : jsonParseL (btChar :: l) = none := by
  have hskip : skipWs (btChar :: l) = btChar :: l :=
    dropWhile_cons_false (by decide) l
  simp only [jsonParseL, parseValue, hskip]
  simp [btChar, lbraceChar, rbraceChar, parseNumberTok, parseNumberIntPart, isDigitChar]

/-- The trailing-fence replace removes exactly the final three backticks of
`x ++ "\n" ++ three backticks`: no earlier position can match, because the
whitespace run after an earlier backtick triple would have to contain the
final (non-whitespace) backticks. -/
lemma stripTrailingFence_append (x : List Char) :
    stripTrailingFence (x ++ '\n' :: btChar :: btChar :: [btChar]) = x ++ ['\n'] := by
  induction x with
  | nil => decide
  | cons c x ih =>
    have hfe : fenceEndHere (c :: (x ++ '\n' :: btChar :: btChar :: [btChar])) = false := by
      rcases x with _ | ⟨a, _ | ⟨b, x2⟩⟩
      · simp [fenceEndHere, btChar]
      · simp [fenceEndHere, btChar]
      · simp only [fenceEndHere, List.cons_append, List.all_append]
        simp [btChar, jsWsChar]
    rw [List.cons_append, stripTrailingFence, if_neg (by simp [hfe]), ih]
    simp

/-- Computation of `jsonTextOf` on a fenced completion: the route recovers
exactly the trimmed inner payload. -/
lemma jsonTextOf_fenced (p : String) (hne : p.data.dropWhile jsWsChar ≠ []) :
    jsonTextOf ("```json\n" ++ p ++ "\n```") = jsTrimL p.data := by
  have hdata : ("```json\n" ++ p ++ "\n```").data =
      btChar :: btChar :: btChar :: 'j' :: 's' :: 'o' :: 'n' :: '\n' ::
        (p.data ++ '\n' :: btChar :: btChar :: [btChar]) := by
    simp [data_append]
    decide
  obtain ⟨c, t, hct⟩ : ∃ c t, p.data.dropWhile jsWsChar = c :: t := by
    cases hd : p.data.dropWhile jsWsChar with
    | nil => exact absurd hd hne
    | cons c t => exact ⟨c, t, rfl⟩
  have hc : jsWsChar c = false := dropWhile_head_false hct
  unfold jsonTextOf
  rw [hdata]
  have htrim : jsTrimL (btChar :: btChar :: btChar :: 'j' :: 's' :: 'o' :: 'n' :: '\n' ::
      (p.data ++ '\n' :: btChar :: btChar :: [btChar])) =
      btChar :: btChar :: btChar :: 'j' :: 's' :: 'o' :: 'n' :: '\n' ::
      (p.data ++ '\n' :: btChar :: btChar :: [btChar]) := by
    simp [jsTrimL, List.dropWhile_cons, List.reverse_append, jsWsChar, btChar]
  rw [htrim]
  have hsw : startsWithFence (btChar :: btChar :: btChar :: 'j' :: 's' :: 'o' :: 'n' :: '\n' ::
      (p.data ++ '\n' :: btChar :: btChar :: [btChar])) = true := by
    simp [startsWithFence]
  rw [if_pos hsw]
  have hsl : stripLeadingFence (btChar :: btChar :: btChar :: 'j' :: 's' :: 'o' :: 'n' :: '\n' ::
      (p.data ++ '\n' :: btChar :: btChar :: [btChar])) =
      (p.data.dropWhile jsWsChar) ++ '\n' :: btChar :: btChar :: [btChar] := by
    simp only [stripLeadingFence]
    rw [if_pos (show True ∧ True ∧ True from ⟨trivial, trivial, trivial⟩)]
    have hj : (('j' : Char).toLower = 'j' ∧ ('s' : Char).toLower = 's' ∧
        ('o' : Char).toLower = 'o' ∧ ('n' : Char).toLower = 'n') := by decide
    rw [if_pos hj, List.dropWhile_cons,
      if_pos (show jsWsChar '\n' = true by decide), List.dropWhile_append]
    rw [hct]
    simp
  rw [hsl, hct, stripTrailingFence_append]
  show jsTrimL ((c :: t) ++ ['\n']) = jsTrimL p.data
  simp only [jsTrimL, hct]
  rw [List.cons_append, dropWhile_cons_false hc]
  have hrev : (c :: (t ++ ['\n'])).reverse = '\n' :: (c :: t).reverse := by
    simp
  rw [hrev, List.dropWhile_cons, if_pos (show jsWsChar '\n' = true by decide)]

/-- When the completion text itself parses as JSON (after trimming), the
fence-stripping branch is not taken: valid JSON cannot start with a
backtick. -/
lemma jsonTextOf_unfenced (p : String) (v : Json)
    (h : jsonParseL (jsTrimL p.data) = some v) :
    jsonTextOf p = jsTrimL p.data := by
  unfold jsonTextOf
  cases hsw : startsWithFence (jsTrimL p.data) with
  | false => simp [hsw]
  | true =>
    exfalso
    rcases hl : jsTrimL p.data with _ | ⟨c1, _ | ⟨c2, _ | ⟨c3, rest⟩⟩⟩ <;>
      rw [hl] at hsw h
    · simp [startsWithFence] at hsw
    · simp [startsWithFence] at hsw
    · simp [startsWithFence] at hsw
    · simp only [startsWithFence, Bool.and_eq_true, decide_eq_true_eq] at hsw
      obtain ⟨⟨hb1, _⟩, _⟩ := hsw
      subst hb1
      rw [jsonParseL_btChar_head] at h
      exact Option.noConfusion h

/-- C3: for a completion payload that is valid JSON, the normalizer parses
the fenced form (triple-backtick json fence around the payload) to exactly
the same value as the unfenced payload; and for any completion text, the
parse stage fails with the malformed-response error exactly when the direct
parse fails and the first-brace-to-last-brace extraction is absent or
itself unparseable. -/
theorem spec2_C3 (p : String) (v : Json)
    (hp : jsonParseL (jsTrimL p.data) = some v) :
    (parseVocabContent ("```json\n" ++ p ++ "\n```") = some v
      ∧ parseVocabContent p = some v)
    ∧ (∀ content : String, parseVocabContent content = none ↔
        (jsonParseL (jsonTextOf content) = none ∧
          (braceExtract (jsonTextOf content) = none ∨
            ∃ m, braceExtract (jsonTextOf content) = some m ∧ jsonParseL m = none))) := by
  constructor
  · have hne : p.data.dropWhile jsWsChar ≠ [] := by
      intro h0
      rw [jsTrimL_eq_of_dropWhile_nil h0, jsonParseL_nil] at hp
      exact Option.noConfusion hp
    constructor
    · unfold parseVocabContent
      rw [jsonTextOf_fenced p hne, hp]
    · unfold parseVocabContent
      rw [jsonTextOf_unfenced p v hp, hp]
  · intro content
    unfold parseVocabContent
    cases h1 : jsonParseL (jsonTextOf content) with
    | some w => simp [h1]
    | none =>
      cases h2 : braceExtract (jsonTextOf content) with
      | none => simp [h2]
      | some m => cases h3 : jsonParseL m <;> simp [h2, h3]

/-- Witness for C3 at the concrete payload from the spec's example. -/
theorem spec2_C3_witness :
    jsonParseL (jsTrimL ("\x7b\"word\":\"x\"\x7d" : String).data) =
      some (Json.obj [("word", Json.str "x")])
    ∧ parseVocabContent ("```json\n" ++ "\x7b\"word\":\"x\"\x7d" ++ "\n```") =
      some (Json.obj [("word", Json.str "x")]) :=
  ⟨by rfl, (spec2_C3 "\x7b\"word\":\"x\"\x7d" (Json.obj [("word", Json.str "x")]) (by rfl)).1.1⟩

lemma hexVal?_hexDigitChar : ∀ n : Nat, n < 16 → hexVal? (hexDigitChar n) = some n := by
  decide

/-- Evaluation of the string-body parser on a closing quote. -/
lemma psb_quote (L : List Char) : parseStringBody ('\"' :: L) = some ([], L) := by
  rw [parseStringBody.eq_def]
  simp

/-- Evaluation on an escaped quote. -/
lemma psb_esc_quote (L : List Char) :
    parseStringBody ('\\' :: '\"' :: L) =
      (parseStringBody L).map (fun p => ('\"' :: p.1, p.2)) := by
  rw [parseStringBody.eq_def]
  simp

/-- Evaluation on an escaped backslash. -/
lemma psb_esc_bs (L : List Char) :
    parseStringBody ('\\' :: '\\' :: L) =
      (parseStringBody L).map (fun p => ('\\' :: p.1, p.2)) := by
  rw [parseStringBody.eq_def]
  simp

/-- Evaluation on an escaped backspace. -/
lemma psb_esc_b (L : List Char) :
    parseStringBody ('\\' :: 'b' :: L) =
      (parseStringBody L).map (fun p => (Char.ofNat 8 :: p.1, p.2)) := by
  rw [parseStringBody.eq_def]
  simp

/-- Evaluation on an escaped form feed. -/
lemma psb_esc_f (L : List Char) :
    parseStringBody ('\\' :: 'f' :: L) =
      (parseStringBody L).map (fun p => (Char.ofNat 12 :: p.1, p.2)) := by
  rw [parseStringBody.eq_def]
  simp

/-- Evaluation on an escaped newline. -/
lemma psb_esc_n (L : List Char) :
    parseStringBody ('\\' :: 'n' :: L) =
      (parseStringBody L).map (fun p => ('\n' :: p.1, p.2)) := by
  rw [parseStringBody.eq_def]
  simp

/-- Evaluation on an escaped carriage return. -/
lemma psb_esc_r (L : List Char) :
    parseStringBody ('\\' :: 'r' :: L) =
      (parseStringBody L).map (fun p => ('\r' :: p.1, p.2)) := by
  rw [parseStringBody.eq_def]
  simp

/-- Evaluation on an escaped tab. -/
lemma psb_esc_t (L : List Char) :
    parseStringBody ('\\' :: 't' :: L) =
      (parseStringBody L).map (fun p => ('\t' :: p.1, p.2)) := by
  rw [parseStringBody.eq_def]
  simp

/-- Evaluation on a `\uXXXX` escape (stuck on the hex-digit lookups). -/
lemma psb_esc_u (d1 d2 d3 d4 : Char) (L : List Char) :
    parseStringBody ('\\' :: 'u' :: d1 :: d2 :: d3 :: d4 :: L) =
      (match hexVal? d1, hexVal? d2, hexVal? d3, hexVal? d4 with
        | some a, some b, some c3, some d =>
          let n := a * 4096 + b * 256 + c3 * 16 + d
          if Nat.isValidChar n then
            (parseStringBody L).map (fun p => (Char.ofNat n :: p.1, p.2))
          else none
        | _, _, _, _ => none) := by
  rw [parseStringBody.eq_def]
  simp

/-- Evaluation on an unescaped character. -/
lemma psb_raw (c : Char) (L : List Char)
    (h1 : ¬ c = '\"') (h2 : ¬ c = '\\') (h3 : ¬ c.toNat < 32) :
    parseStringBody (c :: L) = (parseStringBody L).map (fun p => (c :: p.1, p.2)) := by
  rw [parseStringBody.eq_def]
  simp only [if_neg h1, if_neg h2, if_neg h3]

/-- Core inverse lemma: the string-body parser decodes exactly what
`JSON.stringify` escaping encodes, for every character sequence. -/
lemma parseStringBody_escape :
    ∀ (s : List Char) (rest : List Char),
      parseStringBody (s.flatMap escJsonChar ++ '\"' :: rest) = some (s, rest) := by
  intro s
  induction s with
  | nil =>
    intro rest
    simp [psb_quote]
  | cons c s ih =>
    intro rest
    rw [List.flatMap_cons, List.append_assoc]
    by_cases h1 : c = '\"'
    · subst h1
      rw [show escJsonChar '\"' = ['\\', '\"'] from by decide]
      simp only [List.cons_append, List.nil_append]
      rw [psb_esc_quote, ih]
      rfl
    · by_cases h2 : c = '\\'
      · subst h2
        rw [show escJsonChar '\\' = ['\\', '\\'] from by decide]
        simp only [List.cons_append, List.nil_append]
        rw [psb_esc_bs, ih]
        rfl
      · by_cases h3 : c = Char.ofNat 8
        · subst h3
          rw [show escJsonChar (Char.ofNat 8) = ['\\', 'b'] from by decide]
          simp only [List.cons_append, List.nil_append]
          rw [psb_esc_b, ih]
          rfl
        · by_cases h4 : c = '\t'
          · subst h4
            rw [show escJsonChar '\t' = ['\\', 't'] from by decide]
            simp only [List.cons_append, List.nil_append]
            rw [psb_esc_t, ih]
            rfl
          · by_cases h5 : c = '\n'
            · subst h5
              rw [show escJsonChar '\n' = ['\\', 'n'] from by decide]
              simp only [List.cons_append, List.nil_append]
              rw [psb_esc_n, ih]
              rfl
            · by_cases h6 : c = Char.ofNat 12
              · subst h6
                rw [show escJsonChar (Char.ofNat 12) = ['\\', 'f'] from by decide]
                simp only [List.cons_append, List.nil_append]
                rw [psb_esc_f, ih]
                rfl
              · by_cases h7 : c = '\r'
                · subst h7
                  rw [show escJsonChar '\r' = ['\\', 'r'] from by decide]
                  simp only [List.cons_append, List.nil_append]
                  rw [psb_esc_r, ih]
                  rfl
                · by_cases h8 : c.toNat < 32
                  · have hesc : escJsonChar c =
                        ['\\', 'u', '0', '0', hexDigitChar (c.toNat / 16),
                          hexDigitChar (c.toNat % 16)] := by
                      simp only [escJsonChar, if_neg h1, if_neg h2, if_neg h3, if_neg h4,
                        if_neg h5, if_neg h6, if_neg h7, if_pos h8]
                    rw [hesc]
                    simp only [List.cons_append, List.nil_append]
                    rw [psb_esc_u]
                    rw [show hexVal? '0' = some 0 from by decide,
                      hexVal?_hexDigitChar _ (by omega : c.toNat / 16 < 16),
                      hexVal?_hexDigitChar _ (Nat.mod_lt _ (by omega) : c.toNat % 16 < 16)]
                    have hre : 0 * 4096 + 0 * 256 + c.toNat / 16 * 16 + c.toNat % 16
                        = c.toNat := by omega
                    simp only [hre]
                    rw [if_pos (Or.inl (show c.toNat < 55296 by omega) :
                      Nat.isValidChar c.toNat)]
                    rw [ih, Char.ofNat_toNat]
                    rfl
                  · rw [show escJsonChar c = [c] from by
                      simp only [escJsonChar, if_neg h1, if_neg h2, if_neg h3, if_neg h4,
                        if_neg h5, if_neg h6, if_neg h7, if_neg h8]]
                    simp only [List.cons_append, List.nil_append]
                    rw [psb_raw c _ h1 h2 h8, ih]
                    rfl

/-- A serialized string literal parses as one JSON string value. -/
lemma parseValue_strQuote (fuel : Nat) (s : String) (tail : List Char) :
    parseValue (fuel + 1) (strQuoteL s ++ tail) = some (Json.str s, tail) := by
  have hshape : strQuoteL s ++ tail = '\"' :: (s.data.flatMap escJsonChar ++ '\"' :: tail) := by
    simp [strQuoteL]
  rw [hshape, parseValue.eq_def]
  simp only [skipWs, dropWhile_cons_false (show jsonWsChar '\"' = false from by decide)]
  simp [parseStringBody_escape]

/-- The serialized elements of a nonempty string array parse back to the
corresponding `Json.str` values, given enough fuel. -/
lemma parseElems_strList :
    ∀ (ss : List String) (fuel : Nat) (tail : List Char), ss ≠ [] →
      ss.length + 1 ≤ fuel →
      parseElems fuel (joinComma (ss.map strQuoteL) ++ ']' :: tail) =
        some (ss.map Json.str, tail) := by
  intro ss
  induction ss with
  | nil => intro fuel tail h; exact absurd rfl h
  | cons s ss ih =>
    intro fuel tail _ hfuel
    obtain ⟨f, rfl⟩ : ∃ f, fuel = f + 1 := ⟨fuel - 1, by omega⟩
    obtain ⟨g, rfl⟩ : ∃ g, f = g + 1 := ⟨f - 1, by simp at hfuel; omega⟩
    cases ss with
    | nil =>
      rw [List.map_cons, List.map_nil, joinComma, parseElems.eq_def]
      rw [show ((g + 1) + 1) = Nat.succ (g + 1) from rfl]
      simp only []
      rw [parseValue_strQuote g s (']' :: tail)]
      simp only [skipWs, dropWhile_cons_false (show jsonWsChar ']' = false from by decide)]
      rfl
    | cons s2 ss2 =>
      rw [List.map_cons,
        show joinComma (strQuoteL s :: (s2 :: ss2).map strQuoteL) =
          strQuoteL s ++ ',' :: joinComma ((s2 :: ss2).map strQuoteL) from by
            simp [joinComma]]
      rw [parseElems.eq_def]
      rw [show ((g + 1) + 1) = Nat.succ (g + 1) from rfl]
      simp only []
      rw [List.append_assoc,
        show (',' :: joinComma ((s2 :: ss2).map strQuoteL)) ++ ']' :: tail =
          ',' :: (joinComma ((s2 :: ss2).map strQuoteL) ++ ']' :: tail) from rfl]
      rw [parseValue_strQuote g s _]
      simp only [skipWs, dropWhile_cons_false (show jsonWsChar ',' = false from by decide)]
      rw [ih (g + 1) tail (by simp) (by simp at hfuel ⊢; omega)]
      rfl

/-- The serialized form of a nonempty string array starts with a quote. -/
lemma joinComma_strQuote_head (s : String) (ss : List String) :
    ∃ r, joinComma ((s :: ss).map strQuoteL) = '\"' :: r := by
  cases ss with
  | nil => exact ⟨s.data.flatMap escJsonChar ++ ['\"'], by simp [joinComma, strQuoteL]⟩
  | cons s2 ss2 =>
    exact ⟨(s.data.flatMap escJsonChar ++ ['\"']) ++
      ',' :: joinComma ((s2 :: ss2).map strQuoteL), by simp [joinComma, strQuoteL]⟩

/-- Each serialized string occupies at least two characters, so the joined
element text is at least as long as the element count (minus one). -/
lemma joinComma_strQuote_length :
    ∀ (ss : List String), ss.length ≤ (joinComma (ss.map strQuoteL)).length + 1 := by
  intro ss
  induction ss with
  | nil => simp [joinComma]
  | cons s ss ih =>
    cases ss with
    | nil => simp [joinComma, strQuoteL]
    | cons s2 ss2 =>
      rw [List.map_cons,
        show joinComma (strQuoteL s :: (s2 :: ss2).map strQuoteL) =
          strQuoteL s ++ ',' :: joinComma ((s2 :: ss2).map strQuoteL) from by
            simp [joinComma]]
      have h2 : 2 ≤ (strQuoteL s).length := by
        simp [strQuoteL]
      simp only [List.length_append, List.length_cons] at ih ⊢
      omega

/-- C5 core: `JSON.parse` is a left inverse of `JSON.stringify` on arrays of
strings — serializing any ordered sequence of strings and re-parsing yields
exactly the same sequence. -/
lemma jsonParse_strArrStringify (l : List String) :
    jsonParse (strArrStringify l) = some (Json.arr (l.map Json.str)) := by
  cases l with
  | nil => rfl
  | cons s ss =>
    obtain ⟨r, hr⟩ := joinComma_strQuote_head s ss
    unfold jsonParse jsonParseL strArrStringify
    set jc := joinComma ((s :: ss).map strQuoteL) with hjc
    have hdata : (⟨'[' :: jc ++ [']']⟩ : String).data = '[' :: jc ++ [']'] := rfl
    rw [hdata]
    have hlen : (s :: ss).length + 1 ≤ ('[' :: jc ++ [']']).length := by
      have hb := joinComma_strQuote_length (s :: ss)
      rw [← hjc] at hb
      simp only [List.length_cons, List.length_append] at hb ⊢
      omega
    obtain ⟨N, hN⟩ : ∃ N, ('[' :: jc ++ [']']).length = N + 1 :=
      ⟨jc.length + 1, by simp [List.length_append]⟩
    rw [hN]
    have hskip1 : skipWs ('[' :: (jc ++ [']'])) = '[' :: (jc ++ [']']) :=
      dropWhile_cons_false (by decide) _
    have hskip2 : skipWs (jc ++ [']']) = '\"' :: (r ++ [']']) := by
      rw [hr]
      simp only [List.cons_append]
      exact dropWhile_cons_false (by decide) _
    have harg : ('\"' : Char) :: (r ++ [']']) = jc ++ ']' :: [] := by
      rw [hr]; simp
    rw [parseValue.eq_def]
    rw [show (N + 1 + 1) = Nat.succ (N + 1) from rfl]
    simp only []
    rw [show ('[' :: jc ++ [']'] : List Char) = '[' :: (jc ++ [']']) from by simp]
    rw [hskip1]
    simp only []
    rw [if_neg (by decide : ¬ ('[' : Char) = '\"'),
      if_neg (by decide : ¬ ('[' : Char) = lbraceChar)]
    rw [if_pos trivial]
    rw [hskip2]
    simp only []
    rw [if_neg (by decide : ¬ ('\"' : Char) = ']')]
    rw [harg]
    rw [parseElems_strList (s :: ss) (N + 1) [] (by simp) (by omega)]
    rfl

/-! ## Persistence adapter (database.ts, SQLite branch)

A `DbWordRow` is a row of the `words` table; array-valued fields are stored
as their `JSON.stringify` serialization (TEXT columns).  `savedAt` (an ISO
timestamp string in the source) is modelled as a `Nat`; ISO-8601 strings
compare lexicographically exactly as their time values do. -/

structure DbWordRow where
  id : String
  word : String
  pronunciation : String
  definitions : String
  examples : String
  persianTranslations : String
  mode : String
  savedAt : Nat
deriving Repr

/-- Input to `saveWord` (`Omit<SavedWord, 'id' | 'savedAt'>` with the
array-valued fields as the arrays the route actually passes). -/
structure WordData where
  word : String
  pronunciation : String
  definitions : List String
  examples : List String
  persianTranslations : List String
  mode : String

/-- A word as returned to callers: array fields rehydrated by `JSON.parse`
(any JSON value, per the untyped cast in the source). -/
structure HydratedWord where
  id : String
  word : String
  pronunciation : String
  definitions : Json
  examples : Json
  persianTranslations : Json
  mode : String
  savedAt : Nat

/-- Model of `saveWord` (database.ts lines 147-223, SQLite branch): check
existence with `SELECT ... WHERE LOWER(word) = LOWER(?)`; if present resolve
`null` without touching the store; otherwise build the new row (id string
from word text and timestamp, `JSON.stringify` on array fields), INSERT it,
and resolve the word with the original (unserialized) arrays. -/
def saveWordDB (data : WordData) (now : Nat) (rows : List DbWordRow) :
    Option HydratedWord × List DbWordRow :=
  if rows.any (fun r => decide (jsToLower r.word = jsToLower data.word)) then
    (none, rows)
  else
    let newRow : DbWordRow :=
      { id := data.word ++ "-" ++ toString now
        word := data.word
        pronunciation := data.pronunciation
        definitions := strArrStringify data.definitions
        examples := strArrStringify data.examples
        persianTranslations := strArrStringify data.persianTranslations
        mode := data.mode
        savedAt := now }
    (some
      { id := newRow.id
        word := data.word
        pronunciation := data.pronunciation
        definitions := Json.arr (data.definitions.map Json.str)
        examples := Json.arr (data.examples.map Json.str)
        persianTranslations := Json.arr (data.persianTranslations.map Json.str)
        mode := data.mode
        savedAt := now },
      rows ++ [newRow])

/-- Rehydrate one row (`JSON.parse` on the three serialized fields); `none`
models a `JSON.parse` exception. -/
def hydrateWord (r : DbWordRow) : Option HydratedWord :=
  match jsonParse r.definitions, jsonParse r.examples, jsonParse r.persianTranslations with
  | some d, some e, some t =>
    some
      { id := r.id
        word := r.word
        pronunciation := r.pronunciation
        definitions := d
        examples := e
        persianTranslations := t
        mode := r.mode
        savedAt := r.savedAt }
  | _, _, _ => none

/-- Model of `ORDER BY savedAt DESC` as a (stable) sort. -/
def sortBySavedAtDesc (rows : List DbWordRow) : List DbWordRow :=
  List.insertionSort (fun a b => b.savedAt ≤ a.savedAt) rows

/-- The value `getSavedWords` (database.ts lines 305-338, SQLite branch)
resolves on the paths where its promise settles with a value:
`Except.error` is a failure of the awaited `getDB()` step (store
unavailable), which the catch block turns into `[]`; `Except.ok rows` is a
successful query, whose rows are ordered by `savedAt` descending and
rehydrated.  The remaining paths — a `db.all` error, whose rejection of
the un-awaited returned promise bypasses the catch, and a `JSON.parse`
throw inside the callback, which leaves the promise unsettled — are
modelled by `getSavedWordsRun`. -/
def getSavedWordsModel (fetch : Except Unit (List DbWordRow)) : List HydratedWord :=
  match fetch with
  | Except.error _ => []
  | Except.ok rows => (sortBySavedAtDesc rows).filterMap hydrateWord

/-- Full outcome model of `getSavedWords`: `none` — the promise never
settles (a `JSON.parse` throw inside the `db.all` callback runs outside
the executor's synchronous extent, so neither resolve nor reject is ever
called); `some (Except.error e)` — the `db.all` rejection: the source does
`return new Promise(...)` inside the try block without `await`, so the
later rejection does not pass through the catch and propagates to the
caller; `some (Except.ok l)` — the promise resolves with `l` (either the
caught `getDB()` failure resolving `[]`, or a successful, fully parsing
query). -/
def getSavedWordsRun (dbReady : Except Unit Unit)
    (query : Except Unit (List DbWordRow)) :
    Option (Except Unit (List HydratedWord)) :=
  match dbReady with
  | Except.error _ => some (Except.ok [])
  | Except.ok _ =>
    match query with
    | Except.error e => some (Except.error e)
    | Except.ok rows =>
      if (sortBySavedAtDesc rows).all (fun r => (hydrateWord r).isSome) then
        some (Except.ok ((sortBySavedAtDesc rows).filterMap hydrateWord))
      else none

/-- Model of `isWordSaved` (database.ts lines 377-402):
`SELECT COUNT(*) ... WHERE LOWER(word) = LOWER(?)` compared with 0. -/
def isWordSavedDB (word : String) (rows : List DbWordRow) : Bool :=
  0 < rows.countP (fun r => decide (jsToLower r.word = jsToLower word))

/-- Model of `deleteSavedWord` (database.ts lines 433-460):
`DELETE FROM words WHERE LOWER(word) = LOWER(?)`, reporting whether any row
was removed (`this.changes > 0`, equivalently the length changed). -/
def deleteSavedWordDB (word : String) (rows : List DbWordRow) :
    Bool × List DbWordRow :=
  let rows2 := rows.filter (fun r => decide (¬ jsToLower r.word = jsToLower word))
  (decide (¬ rows2.length = rows.length), rows2)

/-! ## Idiom rows (same shape, `meaning` instead of `definitions`) -/

structure DbIdiomRow where
  id : String
  idiom : String
  meaning : String
  examples : String
  persianTranslations : String
  mode : String
  savedAt : Nat

/-- An idiom as returned to callers, array fields rehydrated. -/
structure HydratedIdiom where
  id : String
  idiom : String
  meaning : Json
  examples : Json
  persianTranslations : Json
  mode : String
  savedAt : Nat

/-- Rehydrate one idiom row. -/
def hydrateIdiom (r : DbIdiomRow) : Option HydratedIdiom :=
  match jsonParse r.meaning, jsonParse r.examples, jsonParse r.persianTranslations with
  | some m, some e, some t =>
    some
      { id := r.id
        idiom := r.idiom
        meaning := m
        examples := e
        persianTranslations := t
        mode := r.mode
        savedAt := r.savedAt }
  | _, _, _ => none

/-- Model of `ORDER BY savedAt DESC` for idioms. -/
def sortIdiomsBySavedAtDesc (rows : List DbIdiomRow) : List DbIdiomRow :=
  List.insertionSort (fun a b => b.savedAt ≤ a.savedAt) rows

/-- Full outcome model of `getSavedIdioms` (database.ts lines 341-374),
with the same promise semantics as `getSavedWordsRun`: only the awaited
`getDB()` failure is caught (resolving `[]`); a `db.all` error propagates
past the catch; a `JSON.parse` throw in the callback never settles the
promise. -/
def getSavedIdiomsRun (dbReady : Except Unit Unit)
    (query : Except Unit (List DbIdiomRow)) :
    Option (Except Unit (List HydratedIdiom)) :=
  match dbReady with
  | Except.error _ => some (Except.ok [])
  | Except.ok _ =>
    match query with
    | Except.error e => some (Except.error e)
    | Except.ok rows =>
      if (sortIdiomsBySavedAtDesc rows).all (fun r => (hydrateIdiom r).isSome) then
        some (Except.ok ((sortIdiomsBySavedAtDesc rows).filterMap hydrateIdiom))
      else none

/-! ## List endpoint (saved-words/route.ts) -/

/-- Shape of the list endpoint's observable response. -/
structure SavedListResponse where
  status : Nat
  success : Bool
  totalWords : Nat
  totalIdioms : Nat
deriving Repr, DecidableEq

/-- Model of `GET /api/saved-words` (saved-words/route.ts lines 4-43) over
the outcomes of the awaited adapter reads: dispatch on the `type` query
parameter; unknown values give a 400; only the reads the branch performs
are awaited.  `none` for an awaited read means its promise never settles,
so no response is produced; a rejected awaited read is caught by the
route's try/catch, answering a 500 server error. -/
def savedWordsGETRun (typ : Option String)
    (wordsRun : Option (Except Unit (List HydratedWord)))
    (idiomsRun : Option (Except Unit (List HydratedIdiom))) :
    Option SavedListResponse :=
  if typ = none ∨ typ = some "all" then
    match wordsRun with
    | none => none
    | some (Except.error _) =>
      some { status := 500, success := false, totalWords := 0, totalIdioms := 0 }
    | some (Except.ok ws) =>
      match idiomsRun with
      | none => none
      | some (Except.error _) =>
        some { status := 500, success := false, totalWords := 0, totalIdioms := 0 }
      | some (Except.ok is2) =>
        some { status := 200, success := true,
               totalWords := ws.length, totalIdioms := is2.length }
  else if typ = some "words" then
    match wordsRun with
    | none => none
    | some (Except.error _) =>
      some { status := 500, success := false, totalWords := 0, totalIdioms := 0 }
    | some (Except.ok ws) =>
      some { status := 200, success := true, totalWords := ws.length, totalIdioms := 0 }
  else if typ = some "idioms" then
    match idiomsRun with
    | none => none
    | some (Except.error _) =>
      some { status := 500, success := false, totalWords := 0, totalIdioms := 0 }
    | some (Except.ok is2) =>
      some { status := 200, success := true, totalWords := 0, totalIdioms := is2.length }
  else
    some { status := 400, success := false, totalWords := 0, totalIdioms := 0 }

/-! ## Remote-client save route (src/unnamed/part_002, POST, lines 45-96) -/

/-- A row of the remote `words` table (the surrogate integer id and
`created_at` default are irrelevant to the modelled claims and omitted). -/
structure RemoteWordRow where
  word : String
  pronunciation : String
  definitions : String
  examples : String
  synonyms : String
  pos : String

/-- The destructured request body, with the source's defaults applied via
`Option.getD` (`pronunciation = ""`, arrays `= []`, `pos = ""`). -/
structure RemoteSaveBody where
  word : Option String
  pronunciation : Option String
  definitions : Option (List String)
  examples : Option (List String)
  synonyms : Option (List String)
  pos : Option String

/-- Model of the remote save route's POST handler: reject a missing/empty
word (400); lowercase the word; `SELECT id FROM words WHERE word = ?`
against the lowercased text, answering 200 "Word already exists" if found;
otherwise INSERT the lowercased word with `JSON.stringify`d arrays (201).
Returns the HTTP status and the resulting table. -/
def remoteSavePOST (b : RemoteSaveBody) (rows : List RemoteWordRow) :
    Nat × List RemoteWordRow :=
  match b.word with
  | none => (400, rows)
  | some w =>
    if w = "" then (400, rows)
    else
      let wordLower := jsToLower w
      if rows.any (fun r => decide (r.word = wordLower)) then (200, rows)
      else
        (201, rows ++
          [{ word := wordLower
             pronunciation := b.pronunciation.getD ""
             definitions := strArrStringify (b.definitions.getD [])
             examples := strArrStringify (b.examples.getD [])
             synonyms := strArrStringify (b.synonyms.getD [])
             pos := b.pos.getD "" }])

/-! ## ASCII lowercasing is idempotent -/

lemma charToNat_ofNat_valid (n : Nat) (h : n.isValidChar) : (Char.ofNat n).toNat = n := by
  simp [Char.ofNat, h, Char.ofNatAux, Char.toNat, UInt32.toNat, BitVec.ofNatLt]

lemma charToLower_idem (c : Char) : c.toLower.toLower = c.toLower := by
  unfold Char.toLower
  by_cases h : c.toNat ≥ 65 ∧ c.toNat ≤ 90
  · rw [if_pos h]
    have hv : (c.toNat + 32).isValidChar := Or.inl (by omega)
    have hnot : ¬ ((Char.ofNat (c.toNat + 32)).toNat ≥ 65
        ∧ (Char.ofNat (c.toNat + 32)).toNat ≤ 90) := by
      rw [charToNat_ofNat_valid _ hv]
      omega
    rw [if_neg hnot]
  · rw [if_neg h, if_neg h]

lemma jsToLower_idem (s : String) : jsToLower (jsToLower s) = jsToLower s := by
  simp only [jsToLower, List.map_map]
  congr 1
  exact List.map_congr_left (fun c _ => charToLower_idem c)

/-! ## Theorems about the persistence adapter -/

/-- C1: under the case-insensitive uniqueness invariant, `saveWord`
preserves the invariant; and after a first save of a word into a store not
containing it, a second save of the same word (any letter-casing) resolves
the `null` sentinel, leaves the store — hence the first row's stored
fields — completely unchanged, and exactly one row for that word exists. -/
theorem spec2_C1 (rows : List DbWordRow) (d1 d2 : WordData) (n1 n2 : Nat)
    (hinv : (rows.map (fun r => jsToLower r.word)).Nodup) :
    ((saveWordDB d1 n1 rows).2.map (fun r => jsToLower r.word)).Nodup
    ∧ (jsToLower d2.word = jsToLower d1.word →
       (¬ ∃ r ∈ rows, jsToLower r.word = jsToLower d1.word) →
       (saveWordDB d2 n2 (saveWordDB d1 n1 rows).2).1 = none
       ∧ (saveWordDB d2 n2 (saveWordDB d1 n1 rows).2).2 = (saveWordDB d1 n1 rows).2
       ∧ (saveWordDB d1 n1 rows).2.countP
           (fun r => decide (jsToLower r.word = jsToLower d1.word)) = 1) := by
  constructor
  · by_cases h : rows.any (fun r => decide (jsToLower r.word = jsToLower d1.word)) = true
    · simp only [saveWordDB, if_pos h]
      exact hinv
    · have hfalse := Bool.eq_false_iff.mpr h
      simp only [saveWordDB]
      rw [if_neg (show ¬ ((rows.any fun r =>
        decide (jsToLower r.word = jsToLower d1.word)) = true) from by simp [hfalse])]
      simp only []
      rw [List.map_append]
      rw [List.nodup_append]
      refine ⟨hinv, by simp, ?_⟩
      intro a ha hb
      simp only [List.map_cons, List.map_nil, List.mem_singleton] at hb
      subst hb
      rw [List.mem_map] at ha
      obtain ⟨r, hr, hrw⟩ := ha
      rw [List.any_eq_false] at hfalse
      exact absurd (by simpa using hrw) (by simpa using hfalse r hr)
  · intro heq hnotin
    have hany : rows.any (fun r => decide (jsToLower r.word = jsToLower d1.word)) = false := by
      rw [List.any_eq_false]
      intro r hr
      simp only [decide_eq_true_eq]
      exact fun hcon => hnotin ⟨r, hr, hcon⟩
    have hfirst : (saveWordDB d1 n1 rows).2 =
        rows ++ [{ id := d1.word ++ "-" ++ toString n1
                   word := d1.word
                   pronunciation := d1.pronunciation
                   definitions := strArrStringify d1.definitions
                   examples := strArrStringify d1.examples
                   persianTranslations := strArrStringify d1.persianTranslations
                   mode := d1.mode
                   savedAt := n1 }] := by
      simp only [saveWordDB]
      rw [if_neg (show ¬ ((rows.any fun r =>
        decide (jsToLower r.word = jsToLower d1.word)) = true) from by simp [hany])]
    have hany2 : ((saveWordDB d1 n1 rows).2.any
        (fun r => decide (jsToLower r.word = jsToLower d2.word))) = true := by
      rw [hfirst, List.any_eq_true]
      exact ⟨_, List.mem_append_right _ (List.mem_singleton_self _), by simp [heq]⟩
    have houter : ∀ rows1 : List DbWordRow,
        rows1.any (fun r => decide (jsToLower r.word = jsToLower d2.word)) = true →
        saveWordDB d2 n2 rows1 = (none, rows1) := by
      intro rows1 h1
      simp only [saveWordDB, if_pos h1]
    refine ⟨?_, ?_, ?_⟩
    · rw [houter _ hany2]
    · rw [houter _ hany2]
    · rw [hfirst, List.countP_append]
      have hzero : rows.countP (fun r => decide (jsToLower r.word = jsToLower d1.word)) = 0 := by
        rw [List.countP_eq_zero]
        intro r hr
        simp only [decide_eq_true_eq]
        exact fun hcon => hnotin ⟨r, hr, hcon⟩
      rw [hzero]
      simp

/-- Witness for C1: saving "Run" then "RUN" into an empty store. -/
theorem spec2_C1_witness :
    (([] : List DbWordRow).map (fun r => jsToLower r.word)).Nodup
    ∧ (saveWordDB ⟨"RUN", "", [], [], [], "vocabulary"⟩ 5
        (saveWordDB ⟨"Run", "/r/", ["a"], [], [], "vocabulary"⟩ 3 []).2).1 = none := by
  refine ⟨List.nodup_nil, ?_⟩
  exact ((spec2_C1 [] ⟨"Run", "/r/", ["a"], [], [], "vocabulary"⟩
    ⟨"RUN", "", [], [], [], "vocabulary"⟩ 3 5 List.nodup_nil).2 (by rfl)
    (by simp)).1

/-- C5: serialization round-trip fidelity.  Saving a Word whose definitions
(examples, translations) are an arbitrary ordered sequence of strings and
then listing yields an entry whose corresponding field is exactly that
sequence: `JSON.stringify` on insert composed with `JSON.parse` on read is
the identity on string sequences.  (The store is assumed to contain only
rows whose serialized fields parse — true of every row the adapter itself
writes — and not to contain the word yet, so the save inserts.) -/
theorem spec2_C5 (rows : List DbWordRow) (data : WordData) (now : Nat)
    (hwf : ∀ r ∈ rows, (hydrateWord r).isSome = true)
    (hnew : ¬ ∃ r ∈ rows, jsToLower r.word = jsToLower data.word) :
    ∃ hw ∈ getSavedWordsModel (Except.ok (saveWordDB data now rows).2),
      hw.word = data.word
      ∧ hw.definitions = Json.arr (data.definitions.map Json.str)
      ∧ hw.examples = Json.arr (data.examples.map Json.str)
      ∧ hw.persianTranslations = Json.arr (data.persianTranslations.map Json.str) := by
  have hany : rows.any (fun r => decide (jsToLower r.word = jsToLower data.word)) = false := by
    rw [List.any_eq_false]
    intro r hr
    simp only [decide_eq_true_eq]
    exact fun hcon => hnew ⟨r, hr, hcon⟩
  have hfirst : (saveWordDB data now rows).2 =
      rows ++ [{ id := data.word ++ "-" ++ toString now
                 word := data.word
                 pronunciation := data.pronunciation
                 definitions := strArrStringify data.definitions
                 examples := strArrStringify data.examples
                 persianTranslations := strArrStringify data.persianTranslations
                 mode := data.mode
                 savedAt := now }] := by
    simp only [saveWordDB]
    rw [if_neg (show ¬ ((rows.any fun r =>
      decide (jsToLower r.word = jsToLower data.word)) = true) from by simp [hany])]
  set newRow : DbWordRow :=
    { id := data.word ++ "-" ++ toString now
      word := data.word
      pronunciation := data.pronunciation
      definitions := strArrStringify data.definitions
      examples := strArrStringify data.examples
      persianTranslations := strArrStringify data.persianTranslations
      mode := data.mode
      savedAt := now } with hnewRow
  have hhyd : hydrateWord newRow = some
      { id := data.word ++ "-" ++ toString now
        word := data.word
        pronunciation := data.pronunciation
        definitions := Json.arr (data.definitions.map Json.str)
        examples := Json.arr (data.examples.map Json.str)
        persianTranslations := Json.arr (data.persianTranslations.map Json.str)
        mode := data.mode
        savedAt := now } := by
    rw [hnewRow]
    simp only [hydrateWord, jsonParse_strArrStringify]
  have hperm := List.perm_insertionSort
    (fun a b : DbWordRow => b.savedAt ≤ a.savedAt) (rows ++ [newRow])
  have hmem2 : newRow ∈ rows ++ [newRow] :=
    List.mem_append_right _ (List.mem_singleton_self _)
  have hmemsorted : newRow ∈ sortBySavedAtDesc (rows ++ [newRow]) := by
    rw [sortBySavedAtDesc]
    exact hperm.mem_iff.mpr hmem2
  have hall : ((sortBySavedAtDesc (rows ++ [newRow])).all
      (fun r => (hydrateWord r).isSome)) = true := by
    rw [List.all_eq_true]
    intro r hr
    rw [sortBySavedAtDesc] at hr
    have hr2 : r ∈ rows ++ [newRow] := hperm.mem_iff.mp hr
    rcases List.mem_append.mp hr2 with h | h
    · exact hwf r h
    · rw [List.mem_singleton] at h
      subst h
      rw [hhyd]
      rfl
  rw [hfirst]
  simp only [getSavedWordsModel]
  exact ⟨_, List.mem_filterMap.mpr ⟨newRow, hmemsorted, hhyd⟩, rfl, rfl, rfl, rfl⟩

/-- Witness for C5: saving definitions `["a","b"]` into an empty store. -/
theorem spec2_C5_witness :
    (¬ ∃ r ∈ ([] : List DbWordRow), jsToLower r.word = jsToLower "run")
    ∧ ∃ hw ∈ getSavedWordsModel (Except.ok
        (saveWordDB ⟨"run", "/r/", ["a", "b"], [], ["x"], "vocabulary"⟩ 1 []).2),
        hw.word = "run"
        ∧ hw.definitions = Json.arr (["a", "b"].map Json.str)
        ∧ hw.examples = Json.arr (([] : List String).map Json.str)
        ∧ hw.persianTranslations = Json.arr (["x"].map Json.str) :=
  ⟨by simp, spec2_C5 [] ⟨"run", "/r/", ["a", "b"], [], ["x"], "vocabulary"⟩ 1
    (by simp) (by simp)⟩

/-- C6: deleting a word that is not in the store (under case-insensitive
comparison) returns `false` and leaves the store unchanged; and for every
word, `delete` followed by `exists` on the same text answers `false`. -/
theorem spec2_C6 (rows : List DbWordRow) (w : String) :
    ((¬ ∃ r ∈ rows, jsToLower r.word = jsToLower w) →
      (deleteSavedWordDB w rows).1 = false ∧ (deleteSavedWordDB w rows).2 = rows)
    ∧ isWordSavedDB w (deleteSavedWordDB w rows).2 = false := by
  constructor
  · intro h
    have hfil : rows.filter (fun r => decide (¬ jsToLower r.word = jsToLower w)) = rows := by
      rw [List.filter_eq_self]
      intro r hr
      simp only [decide_eq_true_eq]
      exact fun hcon => h ⟨r, hr, hcon⟩
    constructor
    · simp [deleteSavedWordDB, hfil]
      exact fun x hx hcon => h ⟨x, hx, hcon⟩
    · simp [deleteSavedWordDB, hfil]
      exact fun x hx hcon => h ⟨x, hx, hcon⟩
  · have hcount : ((rows.filter (fun r => decide (¬ jsToLower r.word = jsToLower w))).countP
        (fun r => decide (jsToLower r.word = jsToLower w))) = 0 := by
      rw [List.countP_eq_zero]
      intro a ha
      rw [List.mem_filter] at ha
      have := ha.2
      simp only [decide_eq_true_eq] at this ⊢
      exact this
    simp [deleteSavedWordDB, isWordSavedDB, hcount]

/-- Witness for C6 on the empty store and the word "zap". -/
theorem spec2_C6_witness :
    (¬ ∃ r ∈ ([] : List DbWordRow), jsToLower r.word = jsToLower "zap")
    ∧ (deleteSavedWordDB "zap" []).1 = false
    ∧ isWordSavedDB "zap" (deleteSavedWordDB "zap" []).2 = false := by
  refine ⟨by simp, ?_, (spec2_C6 [] "zap").2⟩
  exact ((spec2_C6 [] "zap").1 (by simp)).1

/-- Counterexample to C9 as stated: with the store open and the words
query itself failing, `getSavedWords` does not return the empty list —
its un-awaited promise's rejection bypasses the catch and propagates, and
the list endpoint answers a 500 server error, not success with zero
entries. -/
theorem spec2_C9_counterexample :
    getSavedWordsRun (Except.ok ()) (Except.error ()) = some (Except.error ())
    ∧ ¬ getSavedWordsRun (Except.ok ()) (Except.error ()) = some (Except.ok [])
    ∧ savedWordsGETRun none (getSavedWordsRun (Except.ok ()) (Except.error ()))
        (getSavedIdiomsRun (Except.ok ()) (Except.ok [])) =
      some { status := 500, success := false, totalWords := 0, totalIdioms := 0 } := by
  refine ⟨rfl, ?_, by decide⟩
  intro h
  rw [show getSavedWordsRun (Except.ok ()) (Except.error ()) =
    some (Except.error ()) from rfl] at h
  exact Except.noConfusion (Option.some.inj h)

/-- C9 (amended): only a failure of the awaited store-open step
(`getDB()`) is caught by `getSavedWords`/`getSavedIdioms`: they then
resolve the empty list, and the list endpoint reports 200 / success with
zero entries.  A query-level (`db.all`) error is not caught — the
rejection of the un-awaited returned promise bypasses the try/catch,
propagates to the route, and the endpoint answers a 500 server error. -/
theorem spec2_C9 :
    (∀ q : Except Unit (List DbWordRow),
      getSavedWordsRun (Except.error ()) q = some (Except.ok []))
    ∧ (∀ q : Except Unit (List DbIdiomRow),
      getSavedIdiomsRun (Except.error ()) q = some (Except.ok []))
    ∧ savedWordsGETRun none (getSavedWordsRun (Except.error ()) (Except.error ()))
        (getSavedIdiomsRun (Except.error ()) (Except.error ())) =
      some { status := 200, success := true, totalWords := 0, totalIdioms := 0 }
    ∧ getSavedWordsRun (Except.ok ()) (Except.error ()) = some (Except.error ())
    ∧ savedWordsGETRun none (getSavedWordsRun (Except.ok ()) (Except.error ()))
        (getSavedIdiomsRun (Except.ok ()) (Except.ok [])) =
      some { status := 500, success := false, totalWords := 0, totalIdioms := 0 } := by
  refine ⟨fun q => rfl, fun q => rfl, by decide, rfl, by decide⟩

/-- C10: the remote save route lowercases the word before both the
existence check and the insert, so it preserves the invariant that every
stored word text is fully lowercased, and the row created for a fresh word
stores the lowercased text — the submitted casing is not preserved. -/
theorem spec2_C10 (b : RemoteSaveBody) (rows : List RemoteWordRow)
    (hinv : ∀ r ∈ rows, r.word = jsToLower r.word) :
    (∀ r ∈ (remoteSavePOST b rows).2, r.word = jsToLower r.word)
    ∧ (∀ w, b.word = some w → ¬ w = "" →
        (¬ ∃ r ∈ rows, r.word = jsToLower w) →
        (remoteSavePOST b rows).1 = 201
        ∧ ∃ row, (remoteSavePOST b rows).2 = rows ++ [row] ∧ row.word = jsToLower w) := by
  constructor
  · intro r hr
    rcases hw : b.word with _ | w
    · rw [remoteSavePOST.eq_def, hw] at hr
      exact hinv r hr
    · rw [remoteSavePOST.eq_def, hw] at hr
      simp only [] at hr
      by_cases hemp : w = ""
      · rw [if_pos hemp] at hr
        exact hinv r hr
      · rw [if_neg hemp] at hr
        by_cases hdup : (rows.any (fun r => decide (r.word = jsToLower w))) = true
        · rw [if_pos hdup] at hr
          exact hinv r hr
        · rw [if_neg hdup] at hr
          simp only [] at hr
          rcases List.mem_append.mp hr with h | h
          · exact hinv r h
          · rw [List.mem_singleton] at h
            subst h
            exact (jsToLower_idem w).symm
  · intro w hw hemp hnotin
    have hany : (rows.any (fun r => decide (r.word = jsToLower w))) = false := by
      rw [List.any_eq_false]
      intro r hr
      simp only [decide_eq_true_eq]
      exact fun hcon => hnotin ⟨r, hr, hcon⟩
    have hred : remoteSavePOST b rows =
        (201, rows ++
          [{ word := jsToLower w
             pronunciation := b.pronunciation.getD ""
             definitions := strArrStringify (b.definitions.getD [])
             examples := strArrStringify (b.examples.getD [])
             synonyms := strArrStringify (b.synonyms.getD [])
             pos := b.pos.getD "" }]) := by
      rw [remoteSavePOST.eq_def, hw]
      simp only []
      rw [if_neg hemp, if_neg (show ¬ ((rows.any fun r =>
        decide (r.word = jsToLower w)) = true) from by simp [hany])]
    rw [hred]
    exact ⟨rfl, _, rfl, rfl⟩

/-- Witness for C10: submitting "HeLLo" to an empty remote table. -/
theorem spec2_C10_witness :
    (∀ r ∈ ([] : List RemoteWordRow), r.word = jsToLower r.word)
    ∧ (remoteSavePOST ⟨some "HeLLo", none, none, none, none, none⟩ []).1 = 201
    ∧ ∃ row, (remoteSavePOST ⟨some "HeLLo", none, none, none, none, none⟩ []).2 = [] ++ [row]
        ∧ row.word = jsToLower "HeLLo" := by
  refine ⟨by simp, ?_, ?_⟩
  · exact ((spec2_C10 ⟨some "HeLLo", none, none, none, none, none⟩ [] (by simp)).2
      "HeLLo" rfl (by decide) (by simp)).1
  · exact ((spec2_C10 ⟨some "HeLLo", none, none, none, none, none⟩ [] (by simp)).2
      "HeLLo" rfl (by decide) (by simp)).2

/-! ## Vocabulary-mode schema validation and aggregation
(vocabulary/route.ts lines 165-205) -/

/-- Model of JS property lookup on a parsed JSON object: `JSON.parse`
retains the last occurrence of a duplicated key. -/
def jLookup (fields : List (String × Json)) (k : String) : Option Json :=
  fields.foldl (fun acc kv => if kv.1 = k then some kv.2 else acc) none

/-- Property access `j[k]` on a parsed value (non-objects have no
properties of interest here). -/
def jGet (j : Json) (k : String) : Option Json :=
  match j with
  | Json.obj fs => jLookup fs k
  | _ => none

/-- Is the mantissa of a JSON number lexeme zero (so the JS number is
falsy)? -/
def numLexemeIsZero (lex : String) : Bool :=
  (lex.data.takeWhile (fun c => ¬ (c = 'e' ∨ c = 'E'))).all
    (fun c => ¬ ('1' ≤ c ∧ c ≤ '9'))

/-- JS truthiness of an (optional) parsed JSON value: absent, `null`,
`false`, `0` and `""` are falsy; arrays and objects are truthy. -/
def jTruthy : Option Json → Bool
  | none => false
  | some Json.null => false
  | some (Json.bool b) => b
  | some (Json.num lex) => !(numLexemeIsZero lex)
  | some (Json.str s) => !(s == "")
  | some (Json.arr _) => true
  | some (Json.obj _) => true

mutual

/-- JS `String(·)` on a parsed JSON value (template-literal coercion):
strings stay, numbers keep their lexeme, arrays join their elements with
commas, objects print as `[object Object]`. -/
def jsString : Json → String
  | Json.null => "null"
  | Json.bool true => "true"
  | Json.bool false => "false"
  | Json.num lex => lex
  | Json.str s => s
  | Json.arr es => String.intercalate "," (jsStringList es)
  | Json.obj _ => "[object Object]"

/-- `String(·)` on every element of a list of values. -/
def jsStringList : List Json → List String
  | [] => []
  | j :: js => jsString j :: jsStringList js

end

/-- Model of `Array.isArray(x) ? x : nothing`. -/
def asArr : Option Json → Option (List Json)
  | some (Json.arr es) => some es
  | _ => none

/-- The fields of the parsed completion payload that the vocabulary branch
reads, as extracted from the JSON object (`entries`/`definitions`/
`examples`/`persianTranslations` are recorded only when they are arrays,
mirroring the `Array.isArray` checks). -/
structure RawVocab where
  word : Option Json
  entries : Option (List Json)
  definitions : Option (List Json)
  examples : Option (List Json)
  persianTranslations : Option (List Json)

/-- View of a parsed payload as a `RawVocab`. -/
def jsonToRawVocab (j : Json) : RawVocab :=
  { word := jGet j "word"
    entries := asArr (jGet j "entries")
    definitions := asArr (jGet j "definitions")
    examples := asArr (jGet j "examples")
    persianTranslations := asArr (jGet j "persianTranslations") }

/-- The `[pos] text` tagging convention. -/
def tagItem (pos : String) (t : String) : String :=
  "[" ++ pos ++ "] " ++ t

/-- JS `Set.add`: insertion-ordered, deduplicating append. -/
def addUnique (l : List String) (x : String) : List String :=
  if x ∈ l then l else l ++ [x]

/-- `String(entry.partOfSpeech).toLowerCase()`. -/
def posOf (e : Json) : String :=
  jsToLower (jsString ((jGet e "partOfSpeech").getD Json.null))

/-- The per-entry validation
(`!entry.partOfSpeech || !Array.isArray(entry.definitions) ||
!Array.isArray(entry.persianTranslations)`). -/
def entryValid (e : Json) : Bool :=
  jTruthy (jGet e "partOfSpeech") && (asArr (jGet e "definitions")).isSome
    && (asArr (jGet e "persianTranslations")).isSome

/-- `entry.definitions || []` (the validation guarantees an array). -/
def defsOf (e : Json) : List Json := (asArr (jGet e "definitions")).getD []

/-- Does `(entry.examples || [])` support `.forEach`?  An absent or falsy
`entry.examples` is replaced by `[]` and an array iterates; a truthy
non-array (e.g. a string) has no `forEach`, so the route throws a
TypeError there (mapped to a 500 response). -/
def examplesOk (e : Json) : Bool :=
  !(jTruthy (jGet e "examples")) || (asArr (jGet e "examples")).isSome

/-- The elements `(entry.examples || []).forEach` iterates when it is
iterable: the array's elements, or `[]` for an absent/falsy value. -/
def examplesOf (e : Json) : List Json := (asArr (jGet e "examples")).getD []

/-- `entry.persianTranslations || []`. -/
def translationsOf (e : Json) : List Json :=
  (asArr (jGet e "persianTranslations")).getD []

/-- The tagged strings one entry contributes to the merged definitions. -/
def taggedDefs (e : Json) : List String :=
  (defsOf e).map (fun d => tagItem (posOf e) (jsString d))

/-- The tagged strings one entry contributes to the merged examples. -/
def taggedExamples (e : Json) : List String :=
  (examplesOf e).map (fun d => tagItem (posOf e) (jsString d))

/-- The tagged strings one entry contributes to the merged translations. -/
def taggedTranslations (e : Json) : List String :=
  (translationsOf e).map (fun d => tagItem (posOf e) (jsString d))

/-- Model of the entry loop (lines 186-194): validate each entry, then add
its tagged definitions/examples/translations to the three insertion-ordered
sets; a truthy non-array `examples` makes the `forEach` throw a
TypeError. -/
def mergeEntries : List Json → (List String × List String × List String) →
    Except String (List String × List String × List String)
  | [], acc => Except.ok acc
  | e :: es, (ds, exs, ts) =>
    if entryValid e then
      if examplesOk e then
        mergeEntries es
          ((defsOf e).foldl (fun a d => addUnique a (tagItem (posOf e) (jsString d))) ds,
           (examplesOf e).foldl (fun a d => addUnique a (tagItem (posOf e) (jsString d))) exs,
           (translationsOf e).foldl (fun a d => addUnique a (tagItem (posOf e) (jsString d))) ts)
      else Except.error "TypeError: entry.examples.forEach is not a function"
    else Except.error "Invalid entry format from OpenAI"

/-- `Array.isArray(resultData.entries) && resultData.entries.length > 0`. -/
def vocabHasEntries (r : RawVocab) : Bool :=
  match r.entries with
  | some es => !es.isEmpty
  | none => false

/-- `Array.isArray(resultData.definitions) &&
Array.isArray(resultData.persianTranslations)`. -/
def vocabHasTopLevel (r : RawVocab) : Bool :=
  r.definitions.isSome && r.persianTranslations.isSome

/-- Model of the vocabulary-mode validation and aggregation stage
(lines 170-205): require a truthy `word`; require entries or top-level
arrays; when entries are present, merge them and write each aggregate
top-level field only if it is not already an array. -/
def normalizeVocabulary (r : RawVocab) : Except String RawVocab :=
  if jTruthy r.word = false then
    Except.error "Invalid vocabulary response format from OpenAI: missing word"
  else if (vocabHasEntries r || vocabHasTopLevel r) = false then
    Except.error "Invalid vocabulary response format from OpenAI: missing entries and top-level arrays"
  else if vocabHasEntries r = true then
    match mergeEntries (r.entries.getD []) ([], [], []) with
    | Except.error msg => Except.error msg
    | Except.ok (ds, exs, ts) =>
      Except.ok
        { r with
          definitions :=
            match r.definitions with
            | some d => some d
            | none => some (ds.map Json.str)
          examples :=
            match r.examples with
            | some d => some d
            | none => some (exs.map Json.str)
          persianTranslations :=
            match r.persianTranslations with
            | some d => some d
            | none => some (ts.map Json.str) }
  else Except.ok r

lemma mem_addUnique (l : List String) (x y : String) :
    y ∈ addUnique l x ↔ y ∈ l ∨ y = x := by
  unfold addUnique
  by_cases h : x ∈ l
  · rw [if_pos h]
    constructor
    · exact Or.inl
    · rintro (hy | rfl)
      · exact hy
      · exact h
  · rw [if_neg h]
    simp

lemma nodup_addUnique (l : List String) (x : String) (h : l.Nodup) :
    (addUnique l x).Nodup := by
  unfold addUnique
  by_cases hx : x ∈ l
  · rw [if_pos hx]; exact h
  · rw [if_neg hx]
    rw [List.nodup_append]
    refine ⟨h, List.nodup_singleton x, ?_⟩
    intro a ha hax
    rw [List.mem_singleton] at hax
    subst hax
    exact hx ha

lemma foldl_addUnique_mem (L : List String) :
    ∀ (acc : List String) (y : String), y ∈ L.foldl addUnique acc ↔ y ∈ acc ∨ y ∈ L := by
  induction L with
  | nil => intro acc y; simp
  | cons x L ih =>
    intro acc y
    rw [List.foldl_cons, ih, mem_addUnique]
    simp only [List.mem_cons]
    tauto

lemma foldl_addUnique_nodup (L : List String) :
    ∀ (acc : List String), acc.Nodup → (L.foldl addUnique acc).Nodup := by
  induction L with
  | nil => intro acc h; exact h
  | cons x L ih =>
    intro acc h
    exact ih _ (nodup_addUnique _ _ h)

/-- With all entries valid, the loop computes three plain set-folds over the
entries' tagged items. -/
lemma mergeEntries_ok :
    ∀ (es : List Json) (acc : List String × List String × List String),
      (∀ e ∈ es, entryValid e = true) →
      (∀ e ∈ es, examplesOk e = true) →
      mergeEntries es acc = Except.ok
        ((es.flatMap taggedDefs).foldl addUnique acc.1,
         (es.flatMap taggedExamples).foldl addUnique acc.2.1,
         (es.flatMap taggedTranslations).foldl addUnique acc.2.2) := by
  intro es
  induction es with
  | nil => intro acc _ _; simp [mergeEntries]
  | cons e es ih =>
    rintro ⟨ds, exs, ts⟩ hv hex
    rw [mergeEntries, if_pos (hv e (List.mem_cons_self e es)),
      if_pos (hex e (List.mem_cons_self e es))]
    rw [ih _ (fun e2 he2 => hv e2 (List.mem_cons_of_mem e he2))
      (fun e2 he2 => hex e2 (List.mem_cons_of_mem e he2))]
    simp only [List.flatMap_cons, List.foldl_append]
    rw [taggedDefs, taggedExamples, taggedTranslations]
    rw [List.foldl_map, List.foldl_map, List.foldl_map]

/-- C2: in vocabulary mode with a nonempty entries array of valid entries
(each with a truthy part of speech, array-valued definitions and
translations, and an iterable-or-absent examples field, matching exactly
the inputs on which the entry loop does not throw), the normalizer
succeeds; every aggregate it writes is a deduplicated sequence of exactly
the `[lowercased-pos] text` strings of the entries (set semantics: an
identical (pos, text) pair occurs exactly once); and a top-level array
that is already present is passed through unchanged, never overwritten. -/
theorem spec2_C2 (r : RawVocab) (es : List Json)
    (hes : r.entries = some es) (hne : es ≠ [])
    (hword : jTruthy r.word = true)
    (hvalid : ∀ e ∈ es, entryValid e = true)
    (hex : ∀ e ∈ es, examplesOk e = true) :
    ∃ out : RawVocab, normalizeVocabulary r = Except.ok out
      ∧ (∀ d0, r.definitions = some d0 → out.definitions = some d0)
      ∧ (∀ d0, r.examples = some d0 → out.examples = some d0)
      ∧ (∀ d0, r.persianTranslations = some d0 → out.persianTranslations = some d0)
      ∧ (r.definitions = none → ∃ m : List String,
          out.definitions = some (m.map Json.str) ∧ m.Nodup
          ∧ ∀ s, s ∈ m ↔ ∃ e ∈ es, ∃ d ∈ defsOf e, s = tagItem (posOf e) (jsString d))
      ∧ (r.examples = none → ∃ m : List String,
          out.examples = some (m.map Json.str) ∧ m.Nodup
          ∧ ∀ s, s ∈ m ↔ ∃ e ∈ es, ∃ d ∈ examplesOf e, s = tagItem (posOf e) (jsString d))
      ∧ (r.persianTranslations = none → ∃ m : List String,
          out.persianTranslations = some (m.map Json.str) ∧ m.Nodup
          ∧ ∀ s, s ∈ m ↔ ∃ e ∈ es, ∃ d ∈ translationsOf e,
              s = tagItem (posOf e) (jsString d)) := by
  have hhas : vocabHasEntries r = true := by
    rw [vocabHasEntries, hes]
    simpa using hne
  have hmerge := mergeEntries_ok es ([], [], []) hvalid hex
  have hnorm : normalizeVocabulary r = Except.ok
      { r with
        definitions :=
          match r.definitions with
          | some d => some d
          | none => some (((es.flatMap taggedDefs).foldl addUnique []).map Json.str)
        examples :=
          match r.examples with
          | some d => some d
          | none => some (((es.flatMap taggedExamples).foldl addUnique []).map Json.str)
        persianTranslations :=
          match r.persianTranslations with
          | some d => some d
          | none => some (((es.flatMap taggedTranslations).foldl addUnique []).map Json.str) } := by
    rw [normalizeVocabulary, if_neg (by simp [hword]), if_neg (by simp [hhas]),
      if_pos hhas]
    rw [hes]
    simp only [Option.getD_some]
    rw [hmerge]
  refine ⟨_, hnorm, ?_, ?_, ?_, ?_, ?_, ?_⟩
  · intro d0 hd0
    simp [hd0]
  · intro d0 hd0
    simp [hd0]
  · intro d0 hd0
    simp [hd0]
  · intro hnone
    refine ⟨(es.flatMap taggedDefs).foldl addUnique [], by simp [hnone], ?_, ?_⟩
    · exact foldl_addUnique_nodup _ _ List.nodup_nil
    · intro s
      rw [foldl_addUnique_mem]
      simp only [List.not_mem_nil, false_or, List.mem_flatMap, taggedDefs, List.mem_map]
      constructor
      · rintro ⟨e, he, d, hd, rfl⟩
        exact ⟨e, he, d, hd, rfl⟩
      · rintro ⟨e, he, d, hd, rfl⟩
        exact ⟨e, he, d, hd, rfl⟩
  · intro hnone
    refine ⟨(es.flatMap taggedExamples).foldl addUnique [], by simp [hnone], ?_, ?_⟩
    · exact foldl_addUnique_nodup _ _ List.nodup_nil
    · intro s
      rw [foldl_addUnique_mem]
      simp only [List.not_mem_nil, false_or, List.mem_flatMap, taggedExamples, List.mem_map]
      constructor
      · rintro ⟨e, he, d, hd, rfl⟩
        exact ⟨e, he, d, hd, rfl⟩
      · rintro ⟨e, he, d, hd, rfl⟩
        exact ⟨e, he, d, hd, rfl⟩
  · intro hnone
    refine ⟨(es.flatMap taggedTranslations).foldl addUnique [],
      by simp [hnone], ?_, ?_⟩
    · exact foldl_addUnique_nodup _ _ List.nodup_nil
    · intro s
      rw [foldl_addUnique_mem]
      simp only [List.not_mem_nil, false_or, List.mem_flatMap, taggedTranslations,
        List.mem_map]
      constructor
      · rintro ⟨e, he, d, hd, rfl⟩
        exact ⟨e, he, d, hd, rfl⟩
      · rintro ⟨e, he, d, hd, rfl⟩
        exact ⟨e, he, d, hd, rfl⟩

/-- A noun entry carrying the definition "to run quickly". -/
def c2Entry1 : Json :=
  Json.obj [("partOfSpeech", Json.str "noun"),
    ("definitions", Json.arr [Json.str "to run quickly"]),
    ("persianTranslations", Json.arr [Json.str "p1"])]

/-- A verb entry carrying the same definition text. -/
def c2Entry2 : Json :=
  Json.obj [("partOfSpeech", Json.str "verb"),
    ("definitions", Json.arr [Json.str "to run quickly"]),
    ("persianTranslations", Json.arr [Json.str "p2"])]

/-- A parsed payload with two entries and no top-level arrays. -/
def c2Raw : RawVocab :=
  { word := some (Json.str "run")
    entries := some [c2Entry1, c2Entry2]
    definitions := none
    examples := none
    persianTranslations := none }

/-- Witness for C2 at a two-entry payload sharing one definition text. -/
theorem spec2_C2_witness :
    jTruthy c2Raw.word = true
    ∧ (∀ e ∈ [c2Entry1, c2Entry2], entryValid e = true)
    ∧ (∀ e ∈ [c2Entry1, c2Entry2], examplesOk e = true)
    ∧ ∃ out, normalizeVocabulary c2Raw = Except.ok out := by
  refine ⟨by decide, by decide, by decide, ?_⟩
  obtain ⟨out, hout, _⟩ :=
    spec2_C2 c2Raw [c2Entry1, c2Entry2] rfl (by simp) (by decide) (by decide) (by decide)
  exact ⟨out, hout⟩

/-! ## The vocabulary POST handler (vocabulary/route.ts lines 33-215) -/

/-- Observable outcome of one POST request: HTTP status, number of
completion-endpoint invocations, and the normalized vocabulary payload on
success. -/
structure VocabResponse where
  status : Nat
  providerCalls : Nat
  vocabBody : Option RawVocab

/-- The input gate `!word || word.trim().length === 0` of the POST handler
(and of the earlier variant in src/unnamed/part_001). -/
def rejectWordInput (word : Option String) : Bool :=
  match word with
  | none => true
  | some w => w == "" || (jsTrimL w.data).isEmpty

/-- Model of the POST handler: validate the input (the gate answers 400
before any provider call); call the completion endpoint through
`withRetry`; reject empty content; parse-and-repair; then idiom-mode field
checks or vocabulary-mode normalization.  All thrown errors map to a 500
response. -/
def vocabularyPOST (word : Option String) (mode : String)
    (results : Nat → Except Unit String) (jitter : Nat → Nat) : VocabResponse :=
  if rejectWordInput word then
    { status := 400, providerCalls := 0, vocabBody := none }
  else
    let t := withRetryModel results jitter
    match t.1 with
    | Except.error _ => { status := 500, providerCalls := t.2.1, vocabBody := none }
    | Except.ok content =>
      if content = "" then { status := 500, providerCalls := t.2.1, vocabBody := none }
      else
        match parseVocabContent content with
        | none => { status := 500, providerCalls := t.2.1, vocabBody := none }
        | some j =>
          if mode == "idiom" then
            if jTruthy (jGet j "idiom") && jTruthy (jGet j "meaning")
                && jTruthy (jGet j "persianTranslations") then
              { status := 200, providerCalls := t.2.1, vocabBody := none }
            else { status := 500, providerCalls := t.2.1, vocabBody := none }
          else
            match normalizeVocabulary (jsonToRawVocab j) with
            | Except.error _ => { status := 500, providerCalls := t.2.1, vocabBody := none }
            | Except.ok out => { status := 200, providerCalls := t.2.1, vocabBody := some out }

/-- C7: a lookup whose input text is absent, empty, or whitespace-only is
rejected with a 400 validation response, and the completion endpoint is
never invoked. -/
theorem spec2_C7 (word : Option String) (mode : String)
    (results : Nat → Except Unit String) (jitter : Nat → Nat)
    (hws : word = none ∨ ∃ w, word = some w ∧ ∀ c ∈ w.data, jsWsChar c = true) :
    (vocabularyPOST word mode results jitter).status = 400
    ∧ (vocabularyPOST word mode results jitter).providerCalls = 0 := by
  have hgate : rejectWordInput word = true := by
    rcases hws with rfl | ⟨w, rfl, hall⟩
    · rfl
    · rw [rejectWordInput]
      have h1 : w.data.dropWhile jsWsChar = [] := List.dropWhile_eq_nil_iff.mpr hall
      have h2 : jsTrimL w.data = [] := by simp [jsTrimL, h1]
      rw [h2]
      simp
  have hred : vocabularyPOST word mode results jitter =
      { status := 400, providerCalls := 0, vocabBody := none } := by
    rw [vocabularyPOST.eq_def, if_pos hgate]
  rw [hred]
  exact ⟨rfl, rfl⟩

/-- Witness for C7 at the three-space input. -/
theorem spec2_C7_witness :
    ((some "   " : Option String) = none
      ∨ ∃ w, (some "   " : Option String) = some w ∧ ∀ c ∈ w.data, jsWsChar c = true)
    ∧ (vocabularyPOST (some "   ") "vocabulary" (fun _ => Except.ok "x")
        (fun _ => 0)).status = 400
    ∧ (vocabularyPOST (some "   ") "vocabulary" (fun _ => Except.ok "x")
        (fun _ => 0)).providerCalls = 0 := by
  refine ⟨Or.inr ⟨"   ", rfl, by decide⟩, ?_, ?_⟩
  · exact (spec2_C7 (some "   ") "vocabulary" (fun _ => Except.ok "x") (fun _ => 0)
      (Or.inr ⟨"   ", rfl, by decide⟩)).1
  · exact (spec2_C7 (some "   ") "vocabulary" (fun _ => Except.ok "x") (fun _ => 0)
      (Or.inr ⟨"   ", rfl, by decide⟩)).2

/-! ## CSV field escaping (export-anki/route.ts) -/

/-- First replace of `escapeCsvField`: every double quote is doubled
(`.replace` with a global quote pattern). -/
def escCsvQuotes (l : List Char) : List Char :=
  l.flatMap (fun c => if c = '\"' then ['\"', '\"'] else [c])

/-- Second replace: every newline becomes the literal `<br>` marker. -/
def escCsvNewlines (l : List Char) : List Char :=
  l.flatMap (fun c => if c = '\n' then ['<', 'b', 'r', '>'] else [c])

/-- Model of `escapeCsvField` (export-anki/route.ts lines 66-69): quotes
doubled, then newlines replaced by `<br>`. -/
def escapeCsvField (s : String) : String :=
  ⟨escCsvNewlines (escCsvQuotes s.data)⟩

/-- The GET handler wraps every escaped field in double quotes
(lines 27-28). -/
def csvWrapField (s : String) : String :=
  "\"" ++ escapeCsvField s ++ "\""

/-- Combined per-character escaping (the two replaces in one pass). -/
def escCsvChar (c : Char) : List Char :=
  if c = '\"' then ['\"', '\"']
  else if c = '\n' then ['<', 'b', 'r', '>']
  else [c]

/-- A standard (RFC 4180) CSV reader for the inside of a quoted field:
a doubled quote is a literal quote, a single quote ends the field. -/
def csvFieldBody : List Char → Option (List Char × List Char)
  | [] => none
  | c :: rest =>
    if c = '\"' then
      match rest with
      | '\"' :: rest2 => (csvFieldBody rest2).map (fun p => ('\"' :: p.1, p.2))
      | _ => some ([], rest)
    else (csvFieldBody rest).map (fun p => (c :: p.1, p.2))

/-- A standard CSV reader for one whole quoted field. -/
def csvReadField (l : List Char) : Option String :=
  match l with
  | c :: rest =>
    if c = '\"' then
      match csvFieldBody rest with
      | some (content, []) => some ⟨content⟩
      | _ => none
    else none
  | [] => none

lemma escCsvNewlines_append (a b : List Char) :
    escCsvNewlines (a ++ b) = escCsvNewlines a ++ escCsvNewlines b := by
  simp [escCsvNewlines]

/-- The two sequential replaces equal the single-pass escaping: the doubled
quotes contain no newline and the `<br>` marker contains no quote. -/
lemma escapeCsvField_flatMap (s : String) :
    (escapeCsvField s).data = s.data.flatMap escCsvChar := by
  show escCsvNewlines (escCsvQuotes s.data) = s.data.flatMap escCsvChar
  induction s.data with
  | nil => rfl
  | cons c l ih =>
    rw [show escCsvQuotes (c :: l) =
        (if c = '\"' then ['\"', '\"'] else [c]) ++ escCsvQuotes l from by
      simp [escCsvQuotes]]
    rw [escCsvNewlines_append, ih, List.flatMap_cons]
    congr 1
    by_cases h1 : c = '\"'
    · subst h1
      rfl
    · by_cases h2 : c = '\n'
      · subst h2
        simp [escCsvChar, escCsvNewlines]
      · simp [escCsvChar, escCsvNewlines, h1, h2]

/-- Evaluation lemmas for the CSV reader. -/
lemma cfb_esc_quote (L : List Char) :
    csvFieldBody ('\"' :: '\"' :: L) =
      (csvFieldBody L).map (fun p => ('\"' :: p.1, p.2)) := by
  rw [csvFieldBody.eq_def]
  simp

lemma cfb_raw (c : Char) (L : List Char) (h : ¬ c = '\"') :
    csvFieldBody (c :: L) = (csvFieldBody L).map (fun p => (c :: p.1, p.2)) := by
  rw [csvFieldBody.eq_def]
  simp [h]

/-- The reader inverts the escaping on newline-free fields. -/
lemma csvFieldBody_escape :
    ∀ (l : List Char), '\n' ∉ l →
      csvFieldBody (l.flatMap escCsvChar ++ ['\"']) = some (l, []) := by
  intro l
  induction l with
  | nil =>
    intro _
    rw [List.flatMap_nil, List.nil_append, csvFieldBody.eq_def]
    simp
  | cons c l ih =>
    intro hnl
    have hc : ¬ c = '\n' := fun h => hnl (h ▸ List.mem_cons_self c l)
    have hl : '\n' ∉ l := fun h => hnl (List.mem_cons_of_mem c h)
    rw [List.flatMap_cons, List.append_assoc]
    by_cases h1 : c = '\"'
    · subst h1
      rw [show escCsvChar '\"' = ['\"', '\"'] from rfl]
      simp only [List.cons_append, List.nil_append]
      rw [cfb_esc_quote, ih hl]
      rfl
    · rw [show escCsvChar c = [c] from by simp [escCsvChar, h1, hc]]
      simp only [List.cons_append, List.nil_append]
      rw [cfb_raw c _ h1, ih hl]
      rfl

/-- C8: `escapeCsvField` doubles every double quote and replaces every
newline by the literal `<br>` marker (character-wise), the export wraps the
whole field in double quotes, and a standard CSV parser reads a quoted,
quote-doubled, newline-free field back identically. -/
theorem spec2_C8 (s : String) :
    (escapeCsvField s).data = s.data.flatMap escCsvChar
    ∧ (csvWrapField s).data = '\"' :: ((escapeCsvField s).data ++ ['\"'])
    ∧ ('\n' ∉ s.data → csvReadField (csvWrapField s).data = some s) := by
  refine ⟨escapeCsvField_flatMap s, by simp [csvWrapField], ?_⟩
  intro hnl
  have hdata : (csvWrapField s).data = '\"' :: (s.data.flatMap escCsvChar ++ ['\"']) := by
    simp [csvWrapField, escapeCsvField_flatMap]
  rw [hdata, csvReadField.eq_def]
  simp only [if_pos rfl]
  rw [csvFieldBody_escape s.data hnl]
  simp

/-- Witness for C8 at the spec's example field. -/
theorem spec2_C8_witness :
    ('\n' ∉ ("He said \"hi\"" : String).data)
    ∧ csvReadField (csvWrapField "He said \"hi\"").data = some "He said \"hi\"" := by
  refine ⟨by decide, ?_⟩
  exact (spec2_C8 "He said \"hi\"").2.2 (by decide)
